import Mathlib

/-
Verification development for the LocalNews_AI repository.

The definitions below are a shallow embedding of

  * app/services/anthropic.py  (class AnthropicService: the date parser
    `_parse_published_date`, the response normalizer
    `_process_anthropic_response`, the fallback `_get_error_placeholder`,
    the source extractor `_extract_source`, and `search_local_news`), and
  * app/models/response.py     (the pydantic validator
    `NewsArticle.parse_published_date`).

Modelling conventions:
  * Python `datetime` values are modelled by `PyDateTime`: an integer number
    of minutes on an abstract time line together with an optional utc-offset
    (`none` models a naive datetime, i.e. `tzinfo is None` or
    `tzinfo.utcoffset(..) is None`).  `timedelta(days = n)` is `n * 1440`
    minutes, `timedelta(hours = n)` is `n * 60` minutes.
  * `dateutil.parser.parse` (an external library call that either returns a
    datetime or raises) is an explicit function parameter
    `parse : String -> Option PyDateTime`, `none` meaning "raises".
  * "the current UTC time" (`datetime.now(timezone.utc)`) is an explicit
    parameter `now : Int` (its utc-offset is 0).
  * Python attribute access `getattr(x, f, default)` on loosely typed SDK
    objects is modelled by `Option` fields: `none` means the attribute is
    absent and the default applies.
  * Python dicts keep insertion order; the url-indexed working table of the
    normalizer is an insertion-ordered association list (`RawTable`) whose
    overwrite keeps the original position.
-/

set_option maxHeartbeats 1000000

/-! ## Basic string machinery (Python substring / split / slice / int) -/

/-- Test whether `p` occurs at the start of `s` (on character lists). -/
def startsWithL : List Char → List Char → Bool
  | _, [] => true
  | [], _ :: _ => false
  | a :: s, b :: p => a == b && startsWithL s p

/-- Test whether `p` occurs as a contiguous substring of `s`
(models Python `p in s` on strings). -/
def containsL : List Char → List Char → Bool
  | [], p => startsWithL [] p
  | a :: s, p => startsWithL (a :: s) p || containsL s p

/-- Python `pat in s` for strings. -/
def strContains (s pat : String) : Bool := containsL s.data pat.data

/-- Python `s.split(" ")[0]`: the longest space-free leading segment. -/
def firstToken (s : String) : String := String.mk (s.data.takeWhile (fun c => c != ' '))

/-- Python slice `s[:n]` (operates on code points, as Lean characters do). -/
def strTake (s : String) (n : Nat) : String := String.mk (s.data.take n)

/-- Python `s.lower()` (ASCII letters; the date strings compared against are
ASCII patterns). -/
def strLower (s : String) : String := String.mk (s.data.map Char.toLower)

/-- Value of a run of digits, with Python's rule that a single underscore may
separate two digits (`int("1_0") = 10`); anything else fails. -/
def digitsVal : List Char → Nat → Option Nat
  | [], acc => some acc
  | c :: rest, acc =>
    if c.isDigit then digitsVal rest (acc * 10 + (c.toNat - 48))
    else if c == '_' then
      match rest with
      | c2 :: rest2 =>
        if c2.isDigit then digitsVal rest2 (acc * 10 + (c2.toNat - 48)) else none
      | [] => none
    else none

/-- Parse a non-empty unsigned digit string (first character must be a digit). -/
def parseUDigits : List Char → Option Nat
  | [] => none
  | c :: rest => if c.isDigit then digitsVal rest (c.toNat - 48) else none

/-- Python `int(s)`: strip surrounding whitespace, optional sign, digits
(with underscores allowed between digits); `none` models `ValueError`. -/
def pyInt (s : String) : Option Int :=
  let l := ((s.data.dropWhile Char.isWhitespace).reverse.dropWhile Char.isWhitespace).reverse
  match l with
  | '+' :: rest => (parseUDigits rest).map (fun n => (n : Int))
  | '-' :: rest => (parseUDigits rest).map (fun n => -(n : Int))
  | _ => (parseUDigits l).map (fun n => (n : Int))

/-! ## Datetime model and the two date parsers -/

/-- Model of a Python `datetime`: minutes on an abstract time line plus an
optional utc-offset (`none` = naive). -/
structure PyDateTime where
  t : Int
  tz : Option Int
deriving DecidableEq

/-- The value `datetime.now(timezone.utc)` for a given `now` parameter. -/
def nowUtc (now : Int) : PyDateTime := ⟨now, some 0⟩

/-- Shared body of the `try:` block that both `AnthropicService._parse_published_date`
(app/services/anthropic.py lines 33-53) and `NewsArticle.parse_published_date`
(app/models/response.py lines 32-48) duplicate verbatim: relative patterns
first, then "yesterday", then free-form parsing with naive values assumed UTC.
Returns `none` when an exception escapes the block (failed `int(..)` or failed
`dateutil.parser.parse`). -/
def tryParseDateStr (parse : String → Option PyDateTime) (now : Int) (s : String) :
    Option PyDateTime :=
  if strContains (strLower s) "days ago" then
    (pyInt (firstToken (strLower s))).map (fun n => ⟨now - n * 1440, some 0⟩)
  else if strContains (strLower s) "hours ago" then
    (pyInt (firstToken (strLower s))).map (fun n => ⟨now - n * 60, some 0⟩)
  else if strContains (strLower s) "minutes ago" then
    (pyInt (firstToken (strLower s))).map (fun n => ⟨now - n, some 0⟩)
  else if strContains (strLower s) "yesterday" then
    some ⟨now - 1440, some 0⟩
  else
    (parse s).map (fun d => if d.tz.isNone then ⟨d.t, some 0⟩ else d)

/-- `AnthropicService._parse_published_date` (app/services/anthropic.py lines
30-57): falsy input gives `None`; a parse failure falls back to the current
UTC time. -/
def AnthropicService.parse_published_date (parse : String → Option PyDateTime) (now : Int)
    (date_str : Option String) : Option PyDateTime :=
  match date_str with
  | none => none
  | some s =>
    if s = "" then none
    else
      match tryParseDateStr parse now s with
      | some d => some d
      | none => some (nowUtc now)

/-- Possible inputs of the pydantic `before`-mode validator: `None`, a
`datetime`, a `str`, or anything else. -/
inductive PyDateValue where
  | vNone
  | vDatetime (d : PyDateTime)
  | vStr (s : String)
  | vOther
deriving DecidableEq

/-- `NewsArticle.parse_published_date` (app/models/response.py lines 21-51):
`None` stays `None`, a naive datetime is assumed UTC, a string goes through
the shared try-block with `None` on failure, anything else gives `None`. -/
def NewsArticle.parse_published_date (parse : String → Option PyDateTime) (now : Int)
    (value : PyDateValue) : Option PyDateTime :=
  match value with
  | .vNone => none
  | .vDatetime d => if d.tz.isNone then some ⟨d.t, some 0⟩ else some d
  | .vStr s => tryParseDateStr parse now s
  | .vOther => none

/-- Both parsers applied to the same date string return the same result `r`. -/
def bothParsersGive (parse : String → Option PyDateTime) (now : Int) (s : String)
    (r : Option PyDateTime) : Prop :=
  AnthropicService.parse_published_date parse now (some s) = r
  ∧ NewsArticle.parse_published_date parse now (PyDateValue.vStr s) = r

/-! ## Source extraction: urllib.parse netloc model and str.replace -/

/-- The pattern `"www."` as a character list. -/
def wwwPattern : List Char := ['w', 'w', 'w', '.']

/-- Python `s.replace("www.", "")` on character lists: scan left to right,
dropping each non-overlapping occurrence of `"www."` (an occurrence formed
across a removal is kept, exactly as `str.replace` behaves). -/
def replaceWWW : List Char → List Char
  | 'w' :: 'w' :: 'w' :: '.' :: rest => replaceWWW rest
  | c :: rest => c :: replaceWWW rest
  | [] => []

/-- Modelled from the amended claim wording: scan from the left; whenever
`"www."` occurs at the current position drop those four characters and
continue after them, otherwise keep the character and move on. -/
def scanRemoveWWW (s : List Char) : List Char :=
  match s with
  | [] => []
  | c :: rest =>
    if startsWithL (c :: rest) wwwPattern then scanRemoveWWW (rest.drop 3)
    else c :: scanRemoveWWW rest
termination_by s.length
decreasing_by all_goals (simp only [List.length_cons, List.length_drop]; omega)

/-- Characters CPython's urlsplit strips from the start of a url
(WHATWG C0-control or space). -/
def isC0ControlOrSpace (c : Char) : Bool := c.toNat ≤ 32

/-- Tab, CR and LF are removed anywhere in the url by CPython's urlsplit. -/
def isUnsafeUrlByte (c : Char) : Bool := c == '\t' || c == '\r' || c == '\n'

/-- Scheme characters of urllib (letters, digits, `+`, `-`, `.`). -/
def isSchemeChar (c : Char) : Bool := c.isAlpha || c.isDigit || c == '+' || c == '-' || c == '.'

/-- Scheme splitting of urlsplit: when the text before the first `:` is a
non-empty run of scheme characters whose first character is an ASCII letter,
drop it together with the colon; otherwise leave the url unchanged. -/
def splitScheme (l : List Char) : List Char :=
  let pre := l.takeWhile (fun c => c != ':')
  if pre.length == l.length then l
  else if pre.length == 0 then l
  else if (match l with | c :: _ => c.isAlpha | [] => false) && pre.all isSchemeChar then
    l.drop (pre.length + 1)
  else l

/-- Model of `urllib.parse.urlparse(url).netloc`: sanitize the url, split off
a scheme, and if the remainder starts with `"//"` take everything up to the
next `/`, `?` or `#`.  `none` models the `ValueError` urlsplit raises on a
netloc with mismatched square brackets (caught by the bare `except` of
`_extract_source`); the stricter bracketed-host validation of newer CPython
is not modelled. -/
def urlparseNetloc (url : String) : Option String :=
  let l := (url.data.dropWhile isC0ControlOrSpace).filter (fun c => !isUnsafeUrlByte c)
  match splitScheme l with
  | '/' :: '/' :: r =>
    let nl := r.takeWhile (fun c => c != '/' && c != '?' && c != '#')
    if (nl.contains '[' && !nl.contains ']') || (nl.contains ']' && !nl.contains '[') then none
    else some (String.mk nl)
  | _ => some ""

/-- `AnthropicService._extract_source` (app/services/anthropic.py lines
184-190): a falsy url gives "Unknown Source"; otherwise the netloc with
every `"www."` occurrence removed (`str.replace`), or "Unknown Source" when
the netloc is empty or `urlparse` raised (absorbed by the bare `except`). -/
def AnthropicService.extract_source (url : String) : String :=
  if url = "" then "Unknown Source"
  else
    match urlparseNetloc url with
    | none => "Unknown Source"
    | some domain =>
      if domain = "" then "Unknown Source" else String.mk (replaceWWW domain.data)

/-- Modelled from the claim wording of C2: the network-location component
with only a LEADING `"www."` stripped, "Unknown Source" for an empty url or
an absent/empty network location. -/
def leadingStripSource (url : String) : String :=
  if url = "" then "Unknown Source"
  else
    match urlparseNetloc url with
    | none => "Unknown Source"
    | some domain =>
      if domain = "" then "Unknown Source"
      else if startsWithL domain.data wwwPattern then String.mk (domain.data.drop 4)
      else domain

/-! ## The response normalizer -/

/-- Location dictionaries are passed through untouched by the normalizer. -/
abbrev LocationInfo := List (String × String)

/-- One entry of a `web_search_tool_result` block (loosely typed SDK object:
`none` in an `Option` field means the attribute is absent, so the `getattr`
default applies). -/
structure SearchResult where
  rtype : String
  url : Option String
  title : Option String
  encrypted_content : Option String
  page_age : Option String
deriving DecidableEq

/-- One citation of a `text` block. -/
structure CitationItem where
  ctype : String
  url : Option String
  title : Option String
  cited_text : Option String
deriving DecidableEq

/-- A content block of the Anthropic response: the two dispatched block
types with their loosely typed payload (`none` = attribute absent or not a
list), or any other block type (ignored by the code). -/
inductive ContentBlock where
  | webSearchToolResult (content : Option (List (Option SearchResult)))
  | text (citations : Option (List (Option CitationItem)))
  | other
deriving DecidableEq

/-- The response object; `content` may be absent. -/
structure AnthropicResponse where
  content : Option (List (Option ContentBlock))
deriving DecidableEq

/-- Value stored in the url-indexed working table `raw_search_results`
(app/services/anthropic.py lines 112-116). -/
structure RawData where
  title : String
  content_snippet : String
  page_age : Option String
deriving DecidableEq

/-- The url-indexed working table: insertion-ordered, overwrite in place. -/
abbrev RawTable := List (String × RawData)

/-- Dict update `raw_search_results[url] = data`: an existing key keeps its
position and gets the new value, a new key is appended at the end. -/
def rawInsert : RawTable → String → RawData → RawTable
  | [], k, v => [(k, v)]
  | (k', v') :: rest, k, v =>
    if k' == k then (k', v) :: rest else (k', v') :: rawInsert rest k v

/-- Dict lookup `raw_search_results.get(url)`. -/
def rawGet : RawTable → String → Option RawData
  | [], _ => none
  | (k', v') :: rest, k => if k' == k then some v' else rawGet rest k

/-- A citation entry as stored inside an article dict. -/
structure CitationRec where
  url : String
  title : String
  cited_text : String
deriving DecidableEq

/-- An article dict as built by `_process_anthropic_response` or
`_get_error_placeholder` (field order follows the source dict literals).
The fixed relevance scores are modelled as exact rationals. -/
structure Article where
  title : String
  url : String
  source : String
  published_date : Option PyDateTime
  content : String
  location : LocationInfo
  relevance_score : Rat
  citations : List CitationRec
deriving DecidableEq

/-- Loop state of `_process_anthropic_response`: the output list `articles`
and the working table `raw_search_results`. -/
structure NormState where
  articles : List Article
  raw : RawTable
deriving DecidableEq

/-- Processing of one entry of a `web_search_tool_result` block
(app/services/anthropic.py lines 110-116). -/
def procResult (t : RawTable) (r : Option SearchResult) : RawTable :=
  match r with
  | none => t
  | some res =>
    if res.rtype == "web_search_result" then
      match res.url with
      | some u =>
        rawInsert t u ⟨res.title.getD "Untitled", res.encrypted_content.getD "", res.page_age⟩
      | none => t
    else t

/-- The inner `for result in block_content_list` loop. -/
def runResults : List (Option SearchResult) → RawTable → RawTable
  | [], t => t
  | r :: rest, t => runResults rest (procResult t r)

/-- The new-article dict of the citation pass (lines 124-138). -/
def mkCitationArticle (parse : String → Option PyDateTime) (now : Int) (loc : LocationInfo)
    (t : RawTable) (u : String) (c : CitationItem) : Article where
  title := match c.title with
    | some s => s
    | none => match rawGet t u with
      | some d => d.title
      | none => "Untitled"
  url := u
  source := AnthropicService.extract_source u
  published_date :=
    AnthropicService.parse_published_date parse now ((rawGet t u).bind RawData.page_age)
  content := strTake (match c.cited_text with
    | some s => s
    | none => match rawGet t u with
      | some d => d.content_snippet
      | none => "") 500 ++ "..."
  location := loc
  relevance_score := 85 / 100
  citations := [⟨u, c.title.getD "", c.cited_text.getD ""⟩]

/-- Appending a citation to the first article with the given url, only when
that article has no citation with the same url yet (lines 140-150). -/
def appendCitationToFirst : List Article → String → CitationRec → List Article
  | [], _, _ => []
  | a :: rest, u, c =>
    if a.url == u then
      (if a.citations.any (fun ec => ec.url == u) then a
       else { a with citations := a.citations ++ [c] }) :: rest
    else a :: appendCitationToFirst rest u c

/-- Processing of one citation of a `text` block (lines 120-150). -/
def procCitation (parse : String → Option PyDateTime) (now : Int) (loc : LocationInfo)
    (st : NormState) (c : Option CitationItem) : NormState :=
  match c with
  | none => st
  | some cit =>
    if cit.ctype == "web_search_result_location" then
      match cit.url with
      | none => st
      | some u =>
        if !st.articles.any (fun a => a.url == u) then
          { st with articles := st.articles ++ [mkCitationArticle parse now loc st.raw u cit] }
        else
          { st with articles := (appendCitationToFirst st.articles u
              ⟨u, cit.title.getD "", cit.cited_text.getD ""⟩) }
    else st

/-- The inner `for citation in citations_list` loop. -/
def runCitations (parse : String → Option PyDateTime) (now : Int) (loc : LocationInfo) :
    List (Option CitationItem) → NormState → NormState
  | [], st => st
  | c :: rest, st => runCitations parse now loc rest (procCitation parse now loc st c)

/-- Dispatch on one content block (lines 104-150). -/
def procBlock (parse : String → Option PyDateTime) (now : Int) (loc : LocationInfo)
    (st : NormState) (b : Option ContentBlock) : NormState :=
  match b with
  | none => st
  | some (ContentBlock.webSearchToolResult content) =>
    match content with
    | some results => { st with raw := runResults results st.raw }
    | none => st
  | some (ContentBlock.text cits) =>
    match cits with
    | some l => runCitations parse now loc l st
    | none => st
  | some ContentBlock.other => st

/-- The outer `for content_block in response.content` loop. -/
def runBlocks (parse : String → Option PyDateTime) (now : Int) (loc : LocationInfo) :
    List (Option ContentBlock) → NormState → NormState
  | [], st => st
  | b :: rest, st => runBlocks parse now loc rest (procBlock parse now loc st b)

/-- A fallback article built from one working-table entry (lines 152-164). -/
def mkFallbackArticle (parse : String → Option PyDateTime) (now : Int) (loc : LocationInfo)
    (u : String) (d : RawData) : Article where
  title := d.title
  url := u
  source := AnthropicService.extract_source u
  published_date := AnthropicService.parse_published_date parse now d.page_age
  content := strTake d.content_snippet 500 ++ "..."
  location := loc
  relevance_score := 7 / 10
  citations := []

/-- `AnthropicService._get_error_placeholder` (lines 172-182). -/
def AnthropicService.get_error_placeholder (message : String) (loc : LocationInfo)
    (now : Int) : List Article :=
  [{ title := "News Update"
     url := ""
     source := "System"
     published_date := some (nowUtc now)
     content := message
     location := loc
     relevance_score := 1 / 10
     citations := [] }]

/-- `AnthropicService._process_anthropic_response` (lines 96-170). -/
def AnthropicService.process_anthropic_response (parse : String → Option PyDateTime)
    (now : Int) (response : Option AnthropicResponse) (loc : LocationInfo) : List Article :=
  match response with
  | none => AnthropicService.get_error_placeholder "No valid response from news service." loc now
  | some resp =>
    match resp.content with
    | none =>
      AnthropicService.get_error_placeholder "No valid response from news service." loc now
    | some blocks =>
      if blocks.isEmpty then
        AnthropicService.get_error_placeholder "No valid response from news service." loc now
      else
        let st := runBlocks parse now loc blocks ⟨[], []⟩
        let articles :=
          if st.articles.isEmpty && !st.raw.isEmpty then
            st.raw.map (fun p => mkFallbackArticle parse now loc p.1 p.2)
          else st.articles
        if articles.isEmpty then
          AnthropicService.get_error_placeholder "No news found for your criteria." loc now
        else articles

/-- `AnthropicService.search_local_news` (lines 59-94): the external call is
abstracted as `callResult` (`Except.error e` models an exception raised by
the call or by processing, caught at line 92); on success the processed list
is truncated to `max_results`. -/
def AnthropicService.search_local_news (parse : String → Option PyDateTime) (now : Int)
    (callResult : Except String (Option AnthropicResponse)) (loc : LocationInfo)
    (max_results : Nat) : List Article :=
  match callResult with
  | Except.error e =>
    AnthropicService.get_error_placeholder ("Error during news search: " ++ e) loc now
  | Except.ok response =>
    (AnthropicService.process_anthropic_response parse now response loc).take max_results

/-! ## Observers used to state ordering and uniqueness claims -/

/-- The url of a valid citation (correct type tag and a url attribute). -/
def citationUrl? (c : Option CitationItem) : Option String :=
  match c with
  | none => none
  | some cit => if cit.ctype == "web_search_result_location" then cit.url else none

/-- The url of a valid raw search result. -/
def resultUrl? (r : Option SearchResult) : Option String :=
  match r with
  | none => none
  | some res => if res.rtype == "web_search_result" then res.url else none

/-- All valid citation urls of a block, in order. -/
def blockCitUrls (b : Option ContentBlock) : List String :=
  match b with
  | some (ContentBlock.text (some l)) => l.filterMap citationUrl?
  | _ => []

/-- All valid raw-result urls of a block, in order. -/
def blockResUrls (b : Option ContentBlock) : List String :=
  match b with
  | some (ContentBlock.webSearchToolResult (some l)) => l.filterMap resultUrl?
  | _ => []

/-- All valid citation urls of a block sequence, in order. -/
def blocksCitUrls (l : List (Option ContentBlock)) : List String := l.flatMap blockCitUrls

/-- All valid raw-result urls of a block sequence, in order. -/
def blocksResUrls (l : List (Option ContentBlock)) : List String := l.flatMap blockResUrls

/-- First-seen deduplication: keep a url only when it is not in `seen` yet;
kept urls extend `seen`. -/
def dedupFirstAux (seen : List String) : List String → List String
  | [] => []
  | u :: rest =>
    if u ∈ seen then dedupFirstAux seen rest else u :: dedupFirstAux (seen ++ [u]) rest

/-- Invariant of every article built by the citation pass: it is literally
an output of the new-article builder (for some working-table state, url and
citation), and it carries a single citation with the article's own url. -/
def goodArticle (parse : String → Option PyDateTime) (now : Int) (loc : LocationInfo)
    (a : Article) : Prop :=
  (∃ (t : RawTable) (u : String) (c : CitationItem),
    a = mkCitationArticle parse now loc t u c)
  ∧ a.citations.length = 1
  ∧ ∀ c ∈ a.citations, c.url = a.url

theorem strContains_ne_empty {s pat : String} (hpat : pat.data ≠ [])
    (h : strContains s pat = true) : s ≠ "" := by
  intro hs
  subst hs
  rw [strContains] at h
  revert h
  match hp : pat.data with
  | [] => exact absurd hp hpat
  | c :: rest => simp [containsL, startsWithL]

theorem strLower_empty_iff (s : String) : strLower s = "" ↔ s = "" := by
  cases s with
  | mk data =>
    cases data with
    | nil => exact ⟨fun _ => rfl, fun _ => rfl⟩
    | cons c cs =>
      constructor
      · intro h
        simpa [strLower] using congrArg String.data h
      · intro h
        simpa using congrArg String.data h

/-- C4 (amended): the two date-parsing call sites diverge on failure
(None from the outward-facing coercion path, current UTC time from the
normalizer-internal parser); a missing input yields None from both without
attempting parsing; the normalizer-internal parser also short-circuits the
empty string, while the outward-facing path attempts parsing on it and
returns None exactly because parsing an empty string fails. -/
theorem C4_date_failure_divergence (parse : String → Option PyDateTime) (now : Int) :
    (∀ s : String, s ≠ "" → tryParseDateStr parse now s = none →
        AnthropicService.parse_published_date parse now (some s) = some (nowUtc now)
      ∧ NewsArticle.parse_published_date parse now (PyDateValue.vStr s) = none)
  ∧ AnthropicService.parse_published_date parse now none = none
  ∧ AnthropicService.parse_published_date parse now (some "") = none
  ∧ NewsArticle.parse_published_date parse now PyDateValue.vNone = none
  ∧ (parse "" = none → NewsArticle.parse_published_date parse now (PyDateValue.vStr "") = none) := by
  refine ⟨?_, rfl, rfl, rfl, ?_⟩
  · intro s hs hfail
    constructor
    · rw [AnthropicService.parse_published_date, if_neg hs, hfail]
    · rw [NewsArticle.parse_published_date, hfail]
  · intro hp
    show tryParseDateStr parse now "" = none
    rw [tryParseDateStr, if_neg (by decide), if_neg (by decide), if_neg (by decide),
      if_neg (by decide), hp]
    rfl

theorem C4_witness :
    ("garbage" : String) ≠ ""
  ∧ AnthropicService.parse_published_date (fun _ => none) 0 (some "garbage") = some (nowUtc 0)
  ∧ NewsArticle.parse_published_date (fun _ => none) 0 (PyDateValue.vStr "garbage") = none := by
  have h := (C4_date_failure_divergence (fun _ => none) 0).1 "garbage" (by decide) (by decide)
  exact ⟨by decide, h.1, h.2⟩

/-- C5: relative patterns, "yesterday", and the naive-is-UTC rule hold
identically for both date parsers, in the code's priority order. -/
theorem C5_relative_date_parsing (parse : String → Option PyDateTime) (now : Int)
    (s : String) (n : Int) :
    (strContains (strLower s) "days ago" = true →
      pyInt (firstToken (strLower s)) = some n →
      bothParsersGive parse now s (some ⟨now - n * 1440, some 0⟩))
  ∧ (strContains (strLower s) "days ago" = false →
      strContains (strLower s) "hours ago" = true →
      pyInt (firstToken (strLower s)) = some n →
      bothParsersGive parse now s (some ⟨now - n * 60, some 0⟩))
  ∧ (strContains (strLower s) "days ago" = false →
      strContains (strLower s) "hours ago" = false →
      strContains (strLower s) "minutes ago" = true →
      pyInt (firstToken (strLower s)) = some n →
      bothParsersGive parse now s (some ⟨now - n, some 0⟩))
  ∧ (strContains (strLower s) "days ago" = false →
      strContains (strLower s) "hours ago" = false →
      strContains (strLower s) "minutes ago" = false →
      strContains (strLower s) "yesterday" = true →
      bothParsersGive parse now s (some ⟨now - 1440, some 0⟩))
  ∧ (∀ d : PyDateTime,
      strContains (strLower s) "days ago" = false →
      strContains (strLower s) "hours ago" = false →
      strContains (strLower s) "minutes ago" = false →
      strContains (strLower s) "yesterday" = false →
      s ≠ "" →
      parse s = some d → d.tz = none →
      bothParsersGive parse now s (some ⟨d.t, some 0⟩)) := by
  have hne : ∀ pat : String, pat.data ≠ [] → strContains (strLower s) pat = true → s ≠ "" := by
    intro pat hpat h hs
    exact strContains_ne_empty hpat h ((strLower_empty_iff s).mpr hs)
  refine ⟨?_, ?_, ?_, ?_, ?_⟩
  · intro hd hint
    have hs : s ≠ "" := hne _ (by decide) hd
    have htry : tryParseDateStr parse now s = some ⟨now - n * 1440, some 0⟩ := by
      rw [tryParseDateStr, if_pos hd, hint]; rfl
    exact ⟨by rw [AnthropicService.parse_published_date, if_neg hs, htry],
           by rw [NewsArticle.parse_published_date, htry]⟩
  · intro hd hh hint
    have hs : s ≠ "" := hne _ (by decide) hh
    have htry : tryParseDateStr parse now s = some ⟨now - n * 60, some 0⟩ := by
      rw [tryParseDateStr, if_neg (by simp [hd]), if_pos hh, hint]; rfl
    exact ⟨by rw [AnthropicService.parse_published_date, if_neg hs, htry],
           by rw [NewsArticle.parse_published_date, htry]⟩
  · intro hd hh hm hint
    have hs : s ≠ "" := hne _ (by decide) hm
    have htry : tryParseDateStr parse now s = some ⟨now - n, some 0⟩ := by
      rw [tryParseDateStr, if_neg (by simp [hd]), if_neg (by simp [hh]), if_pos hm, hint]; rfl
    exact ⟨by rw [AnthropicService.parse_published_date, if_neg hs, htry],
           by rw [NewsArticle.parse_published_date, htry]⟩
  · intro hd hh hm hy
    have hs : s ≠ "" := hne _ (by decide) hy
    have htry : tryParseDateStr parse now s = some ⟨now - 1440, some 0⟩ := by
      rw [tryParseDateStr, if_neg (by simp [hd]), if_neg (by simp [hh]),
        if_neg (by simp [hm]), if_pos hy]
    exact ⟨by rw [AnthropicService.parse_published_date, if_neg hs, htry],
           by rw [NewsArticle.parse_published_date, htry]⟩
  · intro d hd hh hm hy hs hp htz
    have htry : tryParseDateStr parse now s = some ⟨d.t, some 0⟩ := by
      rw [tryParseDateStr, if_neg (by simp [hd]), if_neg (by simp [hh]),
        if_neg (by simp [hm]), if_neg (by simp [hy]), hp]
      simp [htz]
    exact ⟨by rw [AnthropicService.parse_published_date, if_neg hs, htry],
           by rw [NewsArticle.parse_published_date, htry]⟩

theorem C5_witness :
    bothParsersGive (fun _ => none) 0 "3 days ago" (some ⟨0 - 3 * 1440, some 0⟩)
  ∧ bothParsersGive (fun _ => none) 0 "Yesterday" (some ⟨0 - 1440, some 0⟩) := by
  constructor
  · exact (C5_relative_date_parsing (fun _ => none) 0 "3 days ago" 3).1 (by decide) (by decide)
  · exact (C5_relative_date_parsing (fun _ => none) 0 "Yesterday" 0).2.2.2.1
      (by decide) (by decide) (by decide) (by decide)

theorem replaceWWW_cons (c : Char) (rest : List Char)
    (h : startsWithL (c :: rest) wwwPattern = false) :
    replaceWWW (c :: rest) = c :: replaceWWW rest := by
  apply replaceWWW.eq_2
  intro r hc hr
  subst hc; subst hr
  simp [startsWithL, wwwPattern] at h

theorem scanRemoveWWW_eq_replaceWWW_aux :
    ∀ (n : Nat) (s : List Char), s.length ≤ n → scanRemoveWWW s = replaceWWW s := by
  intro n
  induction n with
  | zero =>
    intro s hs
    have hnil : s = [] := List.eq_nil_of_length_eq_zero (Nat.le_zero.mp hs)
    subst hnil
    rw [scanRemoveWWW]
    rfl
  | succ n ih =>
    intro s hs
    match s with
    | [] => rw [scanRemoveWWW]; rfl
    | c :: rest =>
      rw [scanRemoveWWW]
      by_cases h : startsWithL (c :: rest) wwwPattern = true
      · rw [if_pos h]
        cases rest with
        | nil => simp [startsWithL, wwwPattern] at h
        | cons c2 rest2 =>
          cases rest2 with
          | nil => simp [startsWithL, wwwPattern] at h
          | cons c3 rest3 =>
            cases rest3 with
            | nil => simp [startsWithL, wwwPattern] at h
            | cons c4 r =>
              simp only [wwwPattern, startsWithL, Bool.and_eq_true, beq_iff_eq] at h
              obtain ⟨rfl, rfl, rfl, rfl, -⟩ := h
              show scanRemoveWWW r = replaceWWW ('w' :: 'w' :: 'w' :: '.' :: r)
              have hr : replaceWWW ('w' :: 'w' :: 'w' :: '.' :: r) = replaceWWW r := rfl
              rw [hr]
              exact ih r (by simp only [List.length_cons] at hs; omega)
      · rw [if_neg h, replaceWWW_cons c rest (by simpa using h)]
        congr 1
        exact ih rest (by simp only [List.length_cons] at hs; omega)

theorem scanRemoveWWW_eq_replaceWWW (s : List Char) : scanRemoveWWW s = replaceWWW s :=
  scanRemoveWWW_eq_replaceWWW_aux s.length s le_rfl

/-- C2 (counterexample): the code removes every occurrence of "www." from the
netloc, not only a leading one, so on "https://news.www.bbc.com/a" the
claimed leading-strip behaviour disagrees with `_extract_source`. -/
theorem C2_counterexample_leading_strip :
    AnthropicService.extract_source "https://news.www.bbc.com/a" = "news.bbc.com"
  ∧ leadingStripSource "https://news.www.bbc.com/a" = "news.www.bbc.com"
  ∧ AnthropicService.extract_source "https://news.www.bbc.com/a"
      ≠ leadingStripSource "https://news.www.bbc.com/a" := by
  refine ⟨by decide, by decide, by decide⟩

/-- C2 (amended): for every url, the source-extraction operation returns the
url's network-location component with every left-to-right non-overlapping
occurrence of "www." removed, and returns "Unknown Source" when the url is
empty, the network location cannot be parsed, or the network location is
empty; it never raises (modelled totality, the bare except absorbing the
urlparse error). -/
theorem C2_amended_replace_all (url : String) :
    (url = "" → AnthropicService.extract_source url = "Unknown Source")
  ∧ (url ≠ "" → urlparseNetloc url = none →
      AnthropicService.extract_source url = "Unknown Source")
  ∧ (url ≠ "" → urlparseNetloc url = some "" →
      AnthropicService.extract_source url = "Unknown Source")
  ∧ (∀ domain : String, url ≠ "" → urlparseNetloc url = some domain → domain ≠ "" →
      AnthropicService.extract_source url = String.mk (scanRemoveWWW domain.data)) := by
  refine ⟨?_, ?_, ?_, ?_⟩
  · intro h
    rw [AnthropicService.extract_source, if_pos h]
  · intro h hn
    rw [AnthropicService.extract_source, if_neg h, hn]
  · intro h hn
    rw [AnthropicService.extract_source, if_neg h, hn]
    rfl
  · intro domain h hn hd
    rw [AnthropicService.extract_source, if_neg h, hn, scanRemoveWWW_eq_replaceWWW]
    show (if domain = "" then "Unknown Source" else String.mk (replaceWWW domain.data)) = _
    rw [if_neg hd]

theorem C2_amended_witness :
    AnthropicService.extract_source "https://www.bbc.com/news/x" = "bbc.com"
  ∧ AnthropicService.extract_source "" = "Unknown Source"
  ∧ AnthropicService.extract_source "not a url" = "Unknown Source" := by
  refine ⟨?_, ?_, ?_⟩
  · have h := (C2_amended_replace_all "https://www.bbc.com/news/x").2.2.2 "www.bbc.com"
      (by decide) (by decide) (by decide)
    rw [h, scanRemoveWWW_eq_replaceWWW]
    decide
  · exact (C2_amended_replace_all "").1 rfl
  · exact (C2_amended_replace_all "not a url").2.2.1 (by decide) (by decide)

/-! ## Supporting lemmas about the normalizer loops -/

theorem any_url_eq_mem (l : List Article) (u : String) :
    l.any (fun a => a.url == u) = true ↔ u ∈ l.map (fun a => a.url) := by
  simp only [List.any_eq_true, List.mem_map, beq_iff_eq]

theorem appendCitationToFirst_id (l : List Article) (u : String) (cr : CitationRec)
    (h : ∀ a ∈ l, ∃ c ∈ a.citations, c.url = a.url) :
    appendCitationToFirst l u cr = l := by
  induction l with
  | nil => rfl
  | cons a rest ih =>
    rw [appendCitationToFirst]
    by_cases hu : (a.url == u) = true
    · rw [if_pos hu]
      obtain ⟨c, hc, hcu⟩ := h a (List.mem_cons_self a rest)
      have hany : a.citations.any (fun ec => ec.url == u) = true := by
        rw [List.any_eq_true]
        refine ⟨c, hc, ?_⟩
        rw [beq_iff_eq, hcu]
        exact beq_iff_eq.mp hu
      rw [if_pos hany]
    · rw [if_neg hu]
      rw [ih (fun a ha => h a (List.mem_cons_of_mem _ ha))]

theorem rawInsert_fst (t : RawTable) (k : String) (v : RawData) :
    (rawInsert t k v).map Prod.fst =
      t.map Prod.fst ++ (if k ∈ t.map Prod.fst then [] else [k]) := by
  induction t with
  | nil => simp [rawInsert]
  | cons p rest ih =>
    obtain ⟨k', v'⟩ := p
    rw [rawInsert]
    by_cases hk : (k' == k) = true
    · rw [if_pos hk]
      have hkk : k' = k := beq_iff_eq.mp hk
      subst hkk
      simp
    · rw [if_neg hk]
      have hne : k ≠ k' := fun hEq => hk (by simp [hEq])
      have hmem : (k ∈ k' :: rest.map Prod.fst) ↔ k ∈ rest.map Prod.fst := by
        simp [List.mem_cons, hne]
      simp only [List.map_cons, ih, List.cons_append, hmem]

theorem rawGet_rawInsert (t : RawTable) (k : String) (v : RawData) :
    rawGet (rawInsert t k v) k = some v := by
  induction t with
  | nil => simp [rawInsert, rawGet]
  | cons p rest ih =>
    obtain ⟨k', v'⟩ := p
    rw [rawInsert]
    by_cases hk : (k' == k) = true
    · rw [if_pos hk, rawGet, if_pos hk]
    · rw [if_neg hk, rawGet, if_neg hk]
      exact ih

theorem procResult_fst (t : RawTable) (r : Option SearchResult) :
    (procResult t r).map Prod.fst =
      t.map Prod.fst ++
        (match resultUrl? r with
         | none => []
         | some u => if u ∈ t.map Prod.fst then [] else [u]) := by
  cases r with
  | none => simp [procResult, resultUrl?]
  | some res =>
    rw [procResult, resultUrl?]
    by_cases ht : (res.rtype == "web_search_result") = true
    · rw [if_pos ht, if_pos ht]
      cases res.url with
      | none => simp
      | some u => exact rawInsert_fst t u _
    · rw [if_neg ht, if_neg ht]
      simp

theorem runResults_fst (l : List (Option SearchResult)) : ∀ (t : RawTable),
    (runResults l t).map Prod.fst =
      t.map Prod.fst ++ dedupFirstAux (t.map Prod.fst) (l.filterMap resultUrl?) := by
  induction l with
  | nil => intro t; simp [runResults, dedupFirstAux]
  | cons r rest ih =>
    intro t
    rw [runResults, List.filterMap_cons]
    have hfst := procResult_fst t r
    cases hr : resultUrl? r with
    | none =>
      simp only [hr, List.append_nil] at hfst
      simp only [hr]
      rw [ih, hfst]
    | some u =>
      simp only [hr] at hfst
      simp only [hr]
      by_cases hm : u ∈ t.map Prod.fst
      · rw [if_pos hm] at hfst
        simp only [List.append_nil] at hfst
        rw [ih, hfst, dedupFirstAux, if_pos hm]
      · rw [if_neg hm] at hfst
        rw [ih, hfst, dedupFirstAux, if_neg hm]
        simp [List.append_assoc]

theorem dedupFirstAux_append (xs ys : List String) : ∀ (seen : List String),
    dedupFirstAux seen (xs ++ ys) =
      dedupFirstAux seen xs ++ dedupFirstAux (seen ++ dedupFirstAux seen xs) ys := by
  induction xs with
  | nil => intro seen; simp [dedupFirstAux]
  | cons x xs ih =>
    intro seen
    rw [List.cons_append, dedupFirstAux, dedupFirstAux]
    by_cases hx : x ∈ seen
    · rw [if_pos hx, if_pos hx, ih]
    · rw [if_neg hx, if_neg hx, ih (seen ++ [x])]
      simp [List.append_assoc]

theorem dedupFirstAux_not_mem_seen (l : List String) : ∀ (seen : List String) (u : String),
    u ∈ dedupFirstAux seen l → u ∉ seen := by
  induction l with
  | nil => intro seen u h; simp [dedupFirstAux] at h
  | cons x xs ih =>
    intro seen u h
    rw [dedupFirstAux] at h
    by_cases hx : x ∈ seen
    · rw [if_pos hx] at h
      exact ih seen u h
    · rw [if_neg hx] at h
      rcases List.mem_cons.mp h with rfl | h
      · exact hx
      · intro hu
        exact ih (seen ++ [x]) u h (by simp [hu])

theorem dedupFirstAux_nodup (l : List String) : ∀ (seen : List String),
    (dedupFirstAux seen l).Nodup := by
  induction l with
  | nil => intro seen; simp [dedupFirstAux]
  | cons x xs ih =>
    intro seen
    rw [dedupFirstAux]
    by_cases hx : x ∈ seen
    · rw [if_pos hx]; exact ih seen
    · rw [if_neg hx]
      refine List.nodup_cons.mpr ⟨?_, ih (seen ++ [x])⟩
      intro hmem
      exact dedupFirstAux_not_mem_seen xs (seen ++ [x]) x hmem (by simp)

theorem goodArticle_has_own_citation {parse : String → Option PyDateTime} {now : Int}
    {loc : LocationInfo} {a : Article} (h : goodArticle parse now loc a) :
    ∃ c ∈ a.citations, c.url = a.url := by
  obtain ⟨-, hlen, hurl⟩ := h
  obtain ⟨c0, hc0⟩ := List.length_eq_one.mp hlen
  refine ⟨c0, ?_, ?_⟩
  · rw [hc0]
    exact List.mem_singleton_self c0
  · exact hurl c0 (by rw [hc0]; exact List.mem_singleton_self c0)

theorem mkCitationArticle_good (parse : String → Option PyDateTime) (now : Int)
    (loc : LocationInfo) (t : RawTable) (u : String) (c : CitationItem) :
    goodArticle parse now loc (mkCitationArticle parse now loc t u c) := by
  refine ⟨⟨t, u, c, rfl⟩, rfl, ?_⟩
  intro cr hcr
  have hc : cr = ⟨u, c.title.getD "", c.cited_text.getD ""⟩ := List.mem_singleton.mp hcr
  rw [hc]
  rfl

theorem procCitation_spec (parse : String → Option PyDateTime) (now : Int) (loc : LocationInfo)
    (st : NormState) (c : Option CitationItem)
    (hinv : ∀ a ∈ st.articles, goodArticle parse now loc a) :
    (procCitation parse now loc st c).raw = st.raw
  ∧ (∀ a ∈ (procCitation parse now loc st c).articles, goodArticle parse now loc a)
  ∧ (procCitation parse now loc st c).articles.map (fun a => a.url) =
      st.articles.map (fun a => a.url) ++
        (match citationUrl? c with
         | none => []
         | some u => if u ∈ st.articles.map (fun a => a.url) then [] else [u]) := by
  cases c with
  | none => exact ⟨rfl, hinv, by simp [procCitation, citationUrl?]⟩
  | some cit =>
    by_cases ht : (cit.ctype == "web_search_result_location") = true
    case neg =>
      have h1 : procCitation parse now loc st (some cit) = st := by
        rw [procCitation, if_neg ht]
      have h2 : citationUrl? (some cit) = none := by
        rw [citationUrl?, if_neg ht]
      rw [h1, h2]
      exact ⟨rfl, hinv, by simp⟩
    case pos =>
      cases hu : cit.url with
      | none =>
        have h1 : procCitation parse now loc st (some cit) = st := by
          rw [procCitation, if_pos ht]
          simp only [hu]
        have h2 : citationUrl? (some cit) = none := by
          rw [citationUrl?, if_pos ht, hu]
        rw [h1, h2]
        exact ⟨rfl, hinv, by simp⟩
      | some u =>
        have h2 : citationUrl? (some cit) = some u := by
          rw [citationUrl?, if_pos ht, hu]
        cases hany : st.articles.any (fun a => a.url == u) with
        | true =>
          have hid : appendCitationToFirst st.articles u
              ⟨u, cit.title.getD "", cit.cited_text.getD ""⟩ = st.articles :=
            appendCitationToFirst_id _ _ _
              (fun a ha => goodArticle_has_own_citation (hinv a ha))
          have h1 : procCitation parse now loc st (some cit) =
              { st with articles := (appendCitationToFirst st.articles u
                  ⟨u, cit.title.getD "", cit.cited_text.getD ""⟩) } := by
            rw [procCitation, if_pos ht]
            simp only [hu, hany, Bool.not_true]
            rfl
          have hmem : u ∈ st.articles.map (fun a => a.url) := (any_url_eq_mem _ _).mp hany
          refine ⟨?_, ?_, ?_⟩
          · rw [h1]
          · intro a ha
            rw [h1] at ha
            have ha2 : a ∈ appendCitationToFirst st.articles u
                ⟨u, cit.title.getD "", cit.cited_text.getD ""⟩ := ha
            rw [hid] at ha2
            exact hinv a ha2
          · simp only [h1, h2]
            rw [hid, if_pos hmem, List.append_nil]
        | false =>
          have hnmem : u ∉ st.articles.map (fun a => a.url) := by
            intro hm
            have hcontra := (any_url_eq_mem st.articles u).mpr hm
            rw [hany] at hcontra
            exact Bool.noConfusion hcontra
          have h1 : procCitation parse now loc st (some cit) =
              { st with articles := st.articles ++
                  [mkCitationArticle parse now loc st.raw u cit] } := by
            rw [procCitation, if_pos ht]
            simp only [hu, hany, Bool.not_false]
            rfl
          refine ⟨?_, ?_, ?_⟩
          · rw [h1]
          · intro a ha
            rw [h1] at ha
            have ha2 : a ∈ st.articles ++ [mkCitationArticle parse now loc st.raw u cit] := ha
            rcases List.mem_append.mp ha2 with hmem1 | hmem1
            · exact hinv a hmem1
            · rw [List.mem_singleton.mp hmem1]
              exact mkCitationArticle_good parse now loc st.raw u cit
          · simp only [h1, h2]
            rw [if_neg hnmem, List.map_append]
            rfl

theorem runCitations_spec (parse : String → Option PyDateTime) (now : Int) (loc : LocationInfo)
    (l : List (Option CitationItem)) : ∀ (st : NormState),
    (∀ a ∈ st.articles, goodArticle parse now loc a) →
    (runCitations parse now loc l st).raw = st.raw
  ∧ (∀ a ∈ (runCitations parse now loc l st).articles, goodArticle parse now loc a)
  ∧ (runCitations parse now loc l st).articles.map (fun a => a.url) =
      st.articles.map (fun a => a.url) ++
        dedupFirstAux (st.articles.map (fun a => a.url)) (l.filterMap citationUrl?) := by
  induction l with
  | nil =>
    intro st hinv
    exact ⟨rfl, hinv, by simp [runCitations, dedupFirstAux]⟩
  | cons c rest ih =>
    intro st hinv
    rw [runCitations, List.filterMap_cons]
    obtain ⟨hraw, hinv1, hmap⟩ := procCitation_spec parse now loc st c hinv
    obtain ⟨hraw2, hinv2, hmap2⟩ := ih (procCitation parse now loc st c) hinv1
    cases hc : citationUrl? c with
    | none =>
      simp only [hc, List.append_nil] at hmap
      simp only [hc]
      refine ⟨by rw [hraw2, hraw], hinv2, ?_⟩
      rw [hmap2, hmap]
    | some u =>
      simp only [hc] at hmap
      simp only [hc]
      by_cases hm : u ∈ st.articles.map (fun a => a.url)
      · rw [if_pos hm] at hmap
        simp only [List.append_nil] at hmap
        refine ⟨by rw [hraw2, hraw], hinv2, ?_⟩
        rw [hmap2, hmap, dedupFirstAux, if_pos hm]
      · rw [if_neg hm] at hmap
        refine ⟨by rw [hraw2, hraw], hinv2, ?_⟩
        rw [hmap2, hmap, dedupFirstAux, if_neg hm]
        simp [List.append_assoc]

theorem procBlock_spec (parse : String → Option PyDateTime) (now : Int) (loc : LocationInfo)
    (st : NormState) (b : Option ContentBlock)
    (hinv : ∀ a ∈ st.articles, goodArticle parse now loc a) :
    (∀ a ∈ (procBlock parse now loc st b).articles, goodArticle parse now loc a)
  ∧ (procBlock parse now loc st b).articles.map (fun a => a.url) =
      st.articles.map (fun a => a.url) ++
        dedupFirstAux (st.articles.map (fun a => a.url)) (blockCitUrls b)
  ∧ (procBlock parse now loc st b).raw.map Prod.fst =
      st.raw.map Prod.fst ++ dedupFirstAux (st.raw.map Prod.fst) (blockResUrls b) := by
  cases b with
  | none =>
    exact ⟨hinv, by simp [procBlock, blockCitUrls, dedupFirstAux],
           by simp [procBlock, blockResUrls, dedupFirstAux]⟩
  | some blk =>
    cases blk with
    | webSearchToolResult content =>
      cases content with
      | none =>
        exact ⟨hinv, by simp [procBlock, blockCitUrls, dedupFirstAux],
               by simp [procBlock, blockResUrls, dedupFirstAux]⟩
      | some results =>
        refine ⟨hinv, ?_, ?_⟩
        · show st.articles.map (fun a => a.url) = _
          simp [blockCitUrls, dedupFirstAux]
        · show (runResults results st.raw).map Prod.fst = _
          rw [runResults_fst]
          rfl
    | text cits =>
      cases cits with
      | none =>
        exact ⟨hinv, by simp [procBlock, blockCitUrls, dedupFirstAux],
               by simp [procBlock, blockResUrls, dedupFirstAux]⟩
      | some citl =>
        obtain ⟨hraw, hinv2, hmap⟩ := runCitations_spec parse now loc citl st hinv
        refine ⟨hinv2, ?_, ?_⟩
        · exact hmap
        · show (runCitations parse now loc citl st).raw.map Prod.fst = _
          rw [hraw]
          simp [blockResUrls, dedupFirstAux]
    | other =>
      exact ⟨hinv, by simp [procBlock, blockCitUrls, dedupFirstAux],
             by simp [procBlock, blockResUrls, dedupFirstAux]⟩

theorem runBlocks_spec (parse : String → Option PyDateTime) (now : Int) (loc : LocationInfo)
    (l : List (Option ContentBlock)) : ∀ (st : NormState),
    (∀ a ∈ st.articles, goodArticle parse now loc a) →
    (∀ a ∈ (runBlocks parse now loc l st).articles, goodArticle parse now loc a)
  ∧ (runBlocks parse now loc l st).articles.map (fun a => a.url) =
      st.articles.map (fun a => a.url) ++
        dedupFirstAux (st.articles.map (fun a => a.url)) (blocksCitUrls l)
  ∧ (runBlocks parse now loc l st).raw.map Prod.fst =
      st.raw.map Prod.fst ++ dedupFirstAux (st.raw.map Prod.fst) (blocksResUrls l) := by
  induction l with
  | nil =>
    intro st hinv
    exact ⟨hinv, by simp [runBlocks, blocksCitUrls, dedupFirstAux],
           by simp [runBlocks, blocksResUrls, dedupFirstAux]⟩
  | cons b rest ih =>
    intro st hinv
    rw [runBlocks]
    obtain ⟨hinv1, hmap1, hraw1⟩ := procBlock_spec parse now loc st b hinv
    obtain ⟨hinv2, hmap2, hraw2⟩ := ih (procBlock parse now loc st b) hinv1
    have hcit : blocksCitUrls (b :: rest) = blockCitUrls b ++ blocksCitUrls rest := by
      simp [blocksCitUrls]
    have hres : blocksResUrls (b :: rest) = blockResUrls b ++ blocksResUrls rest := by
      simp [blocksResUrls]
    refine ⟨hinv2, ?_, ?_⟩
    · rw [hmap2, hmap1, hcit, dedupFirstAux_append]
      simp [List.append_assoc]
    · rw [hraw2, hraw1, hres, dedupFirstAux_append]
      simp [List.append_assoc]

theorem process_anthropic_response_ne_nil (parse : String → Option PyDateTime) (now : Int)
    (r : Option AnthropicResponse) (loc : LocationInfo) :
    AnthropicService.process_anthropic_response parse now r loc ≠ [] := by
  match r with
  | none =>
    simp [AnthropicService.process_anthropic_response, AnthropicService.get_error_placeholder]
  | some ⟨none⟩ =>
    simp [AnthropicService.process_anthropic_response, AnthropicService.get_error_placeholder]
  | some ⟨some blocks⟩ =>
    simp only [AnthropicService.process_anthropic_response]
    by_cases hb : blocks.isEmpty = true
    · rw [if_pos hb]
      simp [AnthropicService.get_error_placeholder]
    · rw [if_neg hb]
      by_cases hc : ((runBlocks parse now loc blocks ⟨[], []⟩).articles.isEmpty &&
          !(runBlocks parse now loc blocks ⟨[], []⟩).raw.isEmpty) = true
      · rw [if_pos hc]
        by_cases he : ((runBlocks parse now loc blocks ⟨[], []⟩).raw.map
            (fun p => mkFallbackArticle parse now loc p.1 p.2)).isEmpty = true
        · rw [if_pos he]
          simp [AnthropicService.get_error_placeholder]
        · rw [if_neg he]
          intro hnil
          rw [hnil] at he
          exact he rfl
      · rw [if_neg hc]
        by_cases he : (runBlocks parse now loc blocks ⟨[], []⟩).articles.isEmpty = true
        · rw [if_pos he]
          simp [AnthropicService.get_error_placeholder]
        · rw [if_neg he]
          intro hnil
          rw [hnil] at he
          exact he rfl

/-- C1: for every call outcome (any block sequence, an absent response, or a
raised exception) and every max_results between 1 and 20, the news-search
operation returns at least one and at most max_results articles. -/
theorem C1_news_search_length_bounds (parse : String → Option PyDateTime) (now : Int)
    (callResult : Except String (Option AnthropicResponse)) (loc : LocationInfo)
    (max_results : Nat) (h1 : 1 ≤ max_results) (h2 : max_results ≤ 20) :
    1 ≤ (AnthropicService.search_local_news parse now callResult loc max_results).length
  ∧ (AnthropicService.search_local_news parse now callResult loc max_results).length
      ≤ max_results := by
  cases callResult with
  | error e =>
    constructor
    · show 1 ≤ (AnthropicService.get_error_placeholder
        ("Error during news search: " ++ e) loc now).length
      simp [AnthropicService.get_error_placeholder]
    · show (AnthropicService.get_error_placeholder
        ("Error during news search: " ++ e) loc now).length ≤ max_results
      simpa [AnthropicService.get_error_placeholder] using h1
  | ok response =>
    have hne := process_anthropic_response_ne_nil parse now response loc
    have hpos : 0 < (AnthropicService.process_anthropic_response parse now response loc).length :=
      List.length_pos.mpr hne
    constructor
    · show 1 ≤ ((AnthropicService.process_anthropic_response parse now
        response loc).take max_results).length
      rw [List.length_take]
      omega
    · show ((AnthropicService.process_anthropic_response parse now
        response loc).take max_results).length ≤ max_results
      rw [List.length_take]
      omega

theorem C1_witness :
    1 ≤ (AnthropicService.search_local_news (fun _ => none) 0
        (Except.error "boom") [] 5).length
  ∧ (AnthropicService.search_local_news (fun _ => none) 0
        (Except.error "boom") [] 5).length ≤ 5 :=
  C1_news_search_length_bounds (fun _ => none) 0 (Except.error "boom") [] 5
    (by decide) (by decide)

/-- C8: the urls of the articles returned by the normalizer are pairwise
distinct, whichever tier (citation pass, raw-result fallback, placeholder)
produced them. -/
theorem C8_article_urls_nodup (parse : String → Option PyDateTime) (now : Int)
    (r : Option AnthropicResponse) (loc : LocationInfo) :
    ((AnthropicService.process_anthropic_response parse now r loc).map
      (fun a => a.url)).Nodup := by
  match r with
  | none =>
    simp [AnthropicService.process_anthropic_response, AnthropicService.get_error_placeholder]
  | some ⟨none⟩ =>
    simp [AnthropicService.process_anthropic_response, AnthropicService.get_error_placeholder]
  | some ⟨some blocks⟩ =>
    obtain ⟨hinv, hmap, hraw⟩ :=
      runBlocks_spec parse now loc blocks ⟨[], []⟩ (by intro a ha; cases ha)
    simp only [List.map_nil, List.nil_append] at hmap hraw
    simp only [AnthropicService.process_anthropic_response]
    by_cases hb : blocks.isEmpty = true
    · rw [if_pos hb]
      simp [AnthropicService.get_error_placeholder]
    · rw [if_neg hb]
      by_cases hc : ((runBlocks parse now loc blocks ⟨[], []⟩).articles.isEmpty &&
          !(runBlocks parse now loc blocks ⟨[], []⟩).raw.isEmpty) = true
      · rw [if_pos hc]
        by_cases he : ((runBlocks parse now loc blocks ⟨[], []⟩).raw.map
            (fun p => mkFallbackArticle parse now loc p.1 p.2)).isEmpty = true
        · rw [if_pos he]
          simp [AnthropicService.get_error_placeholder]
        · rw [if_neg he, List.map_map]
          have hfun : ((fun a => a.url) ∘ fun (p : String × RawData) =>
              mkFallbackArticle parse now loc p.1 p.2) = Prod.fst := funext (fun p => rfl)
          rw [hfun, hraw]
          exact dedupFirstAux_nodup _ _
      · rw [if_neg hc]
        by_cases he : (runBlocks parse now loc blocks ⟨[], []⟩).articles.isEmpty = true
        · rw [if_pos he]
          simp [AnthropicService.get_error_placeholder]
        · rw [if_neg he, hmap]
          exact dedupFirstAux_nodup _ _

theorem strTake_dots_length (b : String) :
    (strTake b 500 ++ "...").length = min b.length 500 + 3 := by
  show (String.mk (b.data.take 500) ++ String.mk ['.', '.', '.']).length = _
  rw [show (String.mk (b.data.take 500) ++ String.mk ['.', '.', '.']) =
      String.mk (b.data.take 500 ++ ['.', '.', '.']) from rfl]
  show (b.data.take 500 ++ ['.', '.', '.']).length = min b.data.length 500 + 3
  rw [List.length_append, List.length_take]
  simp [Nat.min_comm]

/-- C3: every article the normalizer builds (citation pass and raw-result
fallback alike) is produced by one of the two article builders; each builder
stores exactly the first 500 characters of its actual input content (the
citation's cited text, else the working-table snippet, else the empty
string; for the fallback tier the table entry's snippet) followed by the
literal "..." suffix, appended unconditionally, so the stored length is
min(input length, 500) + 3 and a 1000-character input retains exactly 500
characters. -/
theorem C3_content_truncation (parse : String → Option PyDateTime) (now : Int)
    (loc : LocationInfo) (blocks : List (Option ContentBlock)) (a : Article)
    (h : a ∈ (runBlocks parse now loc blocks ⟨[], []⟩).articles ∨
         a ∈ (runBlocks parse now loc blocks ⟨[], []⟩).raw.map
           (fun p => mkFallbackArticle parse now loc p.1 p.2)) :
    (∀ (t : RawTable) (u : String) (c : CitationItem),
      (mkCitationArticle parse now loc t u c).content =
        strTake (match c.cited_text, rawGet t u with
          | some s, _ => s
          | none, some d => d.content_snippet
          | none, none => "") 500 ++ "..."
      ∧ (mkCitationArticle parse now loc t u c).content.length =
          min (match c.cited_text, rawGet t u with
            | some s, _ => s
            | none, some d => d.content_snippet
            | none, none => "" : String).length 500 + 3)
  ∧ (∀ (u : String) (d : RawData),
      (mkFallbackArticle parse now loc u d).content = strTake d.content_snippet 500 ++ "..."
      ∧ (mkFallbackArticle parse now loc u d).content.length =
          min d.content_snippet.length 500 + 3)
  ∧ (∀ base : String, base.length = 1000 → (strTake base 500 ++ "...").length = 503)
  ∧ ((∃ (t : RawTable) (u : String) (c : CitationItem),
        a = mkCitationArticle parse now loc t u c)
    ∨ (∃ p : String × RawData,
        p ∈ (runBlocks parse now loc blocks ⟨[], []⟩).raw
        ∧ a = mkFallbackArticle parse now loc p.1 p.2)) := by
  have hcontent : ∀ (t : RawTable) (u : String) (c : CitationItem),
      (mkCitationArticle parse now loc t u c).content =
        strTake (match c.cited_text, rawGet t u with
          | some s, _ => s
          | none, some d => d.content_snippet
          | none, none => "") 500 ++ "..." := by
    intro t u c
    show strTake (match c.cited_text with
      | some s => s
      | none => match rawGet t u with
        | some d => d.content_snippet
        | none => "") 500 ++ "..." = _
    cases c.cited_text with
    | some s => rfl
    | none =>
      cases rawGet t u with
      | some d => rfl
      | none => rfl
  refine ⟨?_, ?_, ?_, ?_⟩
  · intro t u c
    refine ⟨hcontent t u c, ?_⟩
    rw [hcontent t u c]
    exact strTake_dots_length _
  · intro u d
    exact ⟨rfl, strTake_dots_length _⟩
  · intro base hb
    rw [strTake_dots_length, hb]
    decide
  · rcases h with h | h
    · obtain ⟨hinv, -, -⟩ :=
        runBlocks_spec parse now loc blocks ⟨[], []⟩ (by intro a ha; cases ha)
      exact Or.inl (hinv a h).1
    · obtain ⟨p, hp, rfl⟩ := List.mem_map.mp h
      exact Or.inr ⟨p, hp, rfl⟩

/-- C6: the article for a url contains exactly one citation with that url,
and a citation is appended to an existing article only when no citation with
the same url is already in that article's citation list. -/
theorem C6_citation_dedup_by_url (parse : String → Option PyDateTime) (now : Int)
    (loc : LocationInfo) (blocks : List (Option ContentBlock)) (u : String) (a : Article)
    (h : a ∈ (runBlocks parse now loc blocks ⟨[], []⟩).articles) (hu : a.url = u) :
    (a.citations.filter (fun c => c.url == u)).length = 1
  ∧ (∀ (b : Article) (rest : List Article) (cr : CitationRec),
      b.url = u → b.citations.any (fun ec => ec.url == u) = true →
      appendCitationToFirst (b :: rest) u cr = b :: rest) := by
  constructor
  · obtain ⟨hinv, -, -⟩ :=
      runBlocks_spec parse now loc blocks ⟨[], []⟩ (by intro a ha; cases ha)
    obtain ⟨-, hlen, hurl⟩ := hinv a h
    obtain ⟨c0, hc0⟩ := List.length_eq_one.mp hlen
    have hcu : (c0.url == u) = true := by
      rw [beq_iff_eq, hurl c0 (by rw [hc0]; exact List.mem_singleton_self c0), hu]
    rw [hc0, List.filter_cons, if_pos hcu]
    simp
  · intro b rest cr hb hany
    rw [appendCitationToFirst, if_pos (show (b.url == u) = true by rw [beq_iff_eq]; exact hb),
      if_pos hany]

/-- C7: a new article created by the citation pass takes its title from the
citation when present, else the working-table entry, else "Untitled", and
its content from the citation's cited text when present, else the
working-table snippet, else the empty string. -/
theorem C7_new_article_field_fallbacks (parse : String → Option PyDateTime) (now : Int)
    (loc : LocationInfo) (st : NormState) (cit : CitationItem) (u : String)
    (h1 : cit.ctype = "web_search_result_location") (h2 : cit.url = some u)
    (h3 : st.articles.any (fun a => a.url == u) = false) :
    procCitation parse now loc st (some cit) =
      { st with articles := st.articles ++ [mkCitationArticle parse now loc st.raw u cit] }
  ∧ (mkCitationArticle parse now loc st.raw u cit).title =
      (match cit.title, rawGet st.raw u with
       | some s, _ => s
       | none, some d => d.title
       | none, none => "Untitled")
  ∧ (mkCitationArticle parse now loc st.raw u cit).content =
      strTake (match cit.cited_text, rawGet st.raw u with
       | some s, _ => s
       | none, some d => d.content_snippet
       | none, none => "") 500 ++ "..." := by
  refine ⟨?_, ?_, ?_⟩
  · rw [procCitation, if_pos (show (cit.ctype == "web_search_result_location") = true by
      rw [beq_iff_eq]; exact h1)]
    simp only [h2, h3, Bool.not_false]
    rfl
  · show (match cit.title with
      | some s => s
      | none => match rawGet st.raw u with
        | some d => d.title
        | none => "Untitled") = _
    cases cit.title with
    | some s => rfl
    | none =>
      cases rawGet st.raw u with
      | some d => rfl
      | none => rfl
  · show strTake (match cit.cited_text with
      | some s => s
      | none => match rawGet st.raw u with
        | some d => d.content_snippet
        | none => "") 500 ++ "..." = _
    cases cit.cited_text with
    | some s => rfl
    | none =>
      cases rawGet st.raw u with
      | some d => rfl
      | none => rfl

/-- C9: the citation pass emits articles in first-citation-seen url order,
the working table keeps first-insertion order with last-write-wins values,
and the raw-results-only fallback emits articles in working-table order. -/
theorem C9_output_ordering (parse : String → Option PyDateTime) (now : Int)
    (loc : LocationInfo) (blocks : List (Option ContentBlock)) :
    (runBlocks parse now loc blocks ⟨[], []⟩).articles.map (fun a => a.url) =
      dedupFirstAux [] (blocksCitUrls blocks)
  ∧ (runBlocks parse now loc blocks ⟨[], []⟩).raw.map Prod.fst =
      dedupFirstAux [] (blocksResUrls blocks)
  ∧ (∀ (t : RawTable) (k : String) (v : RawData),
      rawGet (rawInsert t k v) k = some v
      ∧ (k ∈ t.map Prod.fst → (rawInsert t k v).map Prod.fst = t.map Prod.fst))
  ∧ ((runBlocks parse now loc blocks ⟨[], []⟩).articles = [] →
      (runBlocks parse now loc blocks ⟨[], []⟩).raw ≠ [] →
      blocks ≠ [] →
      (AnthropicService.process_anthropic_response parse now (some ⟨some blocks⟩) loc).map
        (fun a => a.url) = dedupFirstAux [] (blocksResUrls blocks)) := by
  obtain ⟨hinv, hmap, hraw⟩ :=
    runBlocks_spec parse now loc blocks ⟨[], []⟩ (by intro a ha; cases ha)
  simp only [List.map_nil, List.nil_append] at hmap hraw
  refine ⟨hmap, hraw, ?_, ?_⟩
  · intro t k v
    refine ⟨rawGet_rawInsert t k v, ?_⟩
    intro hk
    rw [rawInsert_fst, if_pos hk, List.append_nil]
  · intro harts hrawne hblocks
    have hb : blocks.isEmpty = false := by
      cases blocks with
      | nil => exact absurd rfl hblocks
      | cons x xs => rfl
    have hc : ((runBlocks parse now loc blocks ⟨[], []⟩).articles.isEmpty &&
        !(runBlocks parse now loc blocks ⟨[], []⟩).raw.isEmpty) = true := by
      rw [harts]
      cases hr : (runBlocks parse now loc blocks ⟨[], []⟩).raw with
      | nil => exact absurd hr hrawne
      | cons x xs => rfl
    have he : ((runBlocks parse now loc blocks ⟨[], []⟩).raw.map
        (fun p => mkFallbackArticle parse now loc p.1 p.2)).isEmpty = false := by
      cases hr : (runBlocks parse now loc blocks ⟨[], []⟩).raw with
      | nil => exact absurd hr hrawne
      | cons x xs => rfl
    simp only [AnthropicService.process_anthropic_response]
    rw [if_neg (by rw [hb]; exact Bool.noConfusion), if_pos hc,
      if_neg (by rw [he]; exact Bool.noConfusion), List.map_map]
    have hfun : ((fun a => a.url) ∘ fun (p : String × RawData) =>
        mkFallbackArticle parse now loc p.1 p.2) = Prod.fst := funext (fun p => rfl)
    rw [hfun, hraw]

/-- C10 (implicit): every article produced by the citation pass carries a
citation list of length exactly one, because the citation stored at creation
already has the article's url, so the append-a-second-citation branch never
fires. -/
theorem C10_single_citation (parse : String → Option PyDateTime) (now : Int)
    (loc : LocationInfo) (blocks : List (Option ContentBlock)) (a : Article)
    (h : a ∈ (runBlocks parse now loc blocks ⟨[], []⟩).articles) :
    a.citations.length = 1 := by
  obtain ⟨hinv, -, -⟩ :=
    runBlocks_spec parse now loc blocks ⟨[], []⟩ (by intro a ha; cases ha)
  exact (hinv a h).2.1

theorem C3_witness :
    (mkCitationArticle (fun _ => none) 0 [] []
      "u" ⟨"web_search_result_location", some "u", some "T", some "hello"⟩).content =
      strTake "hello" 500 ++ "..."
  ∧ (strTake (String.mk (List.replicate 1000 'x')) 500 ++ "...").length = 503 := by
  have harts : (runBlocks (fun _ => none) 0 []
      [some (ContentBlock.text (some
        [some ⟨"web_search_result_location", some "u", some "T", some "hello"⟩]))]
      ⟨[], []⟩).articles =
      [mkCitationArticle (fun _ => none) 0 [] []
        "u" ⟨"web_search_result_location", some "u", some "T", some "hello"⟩] := rfl
  have h := C3_content_truncation (fun _ => none) 0 []
    [some (ContentBlock.text (some
      [some ⟨"web_search_result_location", some "u", some "T", some "hello"⟩]))]
    (mkCitationArticle (fun _ => none) 0 [] []
      "u" ⟨"web_search_result_location", some "u", some "T", some "hello"⟩)
    (Or.inl (by rw [harts]; exact List.mem_singleton_self _))
  constructor
  · rw [(h.1 [] "u" ⟨"web_search_result_location", some "u", some "T", some "hello"⟩).1]
  · exact h.2.2.1 (String.mk (List.replicate 1000 'x'))
      (by show (List.replicate 1000 'x').length = 1000
          exact List.length_replicate 1000 'x')

theorem C6_witness :
    ((mkCitationArticle (fun _ => none) 0 [] [("u6", ⟨"T6", "S6", none⟩)]
      "u6" ⟨"web_search_result_location", some "u6", some "t", some "x"⟩).citations.filter
        (fun c => c.url == "u6")).length = 1 := by
  have harts : (runBlocks (fun _ => none) 0 []
      [some (ContentBlock.webSearchToolResult (some
        [some ⟨"web_search_result", some "u6", some "T6", some "S6", none⟩])),
       some (ContentBlock.text (some
        [some ⟨"web_search_result_location", some "u6", some "t", some "x"⟩,
         some ⟨"web_search_result_location", some "u6", some "t", some "x"⟩]))]
      ⟨[], []⟩).articles =
      [mkCitationArticle (fun _ => none) 0 [] [("u6", ⟨"T6", "S6", none⟩)]
        "u6" ⟨"web_search_result_location", some "u6", some "t", some "x"⟩] := rfl
  exact (C6_citation_dedup_by_url (fun _ => none) 0 []
    [some (ContentBlock.webSearchToolResult (some
      [some ⟨"web_search_result", some "u6", some "T6", some "S6", none⟩])),
     some (ContentBlock.text (some
      [some ⟨"web_search_result_location", some "u6", some "t", some "x"⟩,
       some ⟨"web_search_result_location", some "u6", some "t", some "x"⟩]))]
    "u6" _ (by rw [harts]; exact List.mem_singleton_self _) rfl).1

theorem C7_witness :
    (mkCitationArticle (fun _ => none) 0 [] [("u7", ⟨"T7", "S7", none⟩)] "u7"
      ⟨"web_search_result_location", some "u7", none, none⟩).title = "T7"
  ∧ procCitation (fun _ => none) 0 [] ⟨[], [("u7", ⟨"T7", "S7", none⟩)]⟩
      (some ⟨"web_search_result_location", some "u7", none, none⟩) =
    { articles := [mkCitationArticle (fun _ => none) 0 [] [("u7", ⟨"T7", "S7", none⟩)] "u7"
        ⟨"web_search_result_location", some "u7", none, none⟩],
      raw := [("u7", ⟨"T7", "S7", none⟩)] } := by
  have h := C7_new_article_field_fallbacks (fun _ => none) 0 []
    ⟨[], [("u7", ⟨"T7", "S7", none⟩)]⟩ ⟨"web_search_result_location", some "u7", none, none⟩
    "u7" rfl rfl rfl
  constructor
  · rw [h.2.1]
    rfl
  · exact h.1

theorem C9_witness :
    (AnthropicService.process_anthropic_response (fun _ => none) 0
      (some ⟨some [some (ContentBlock.webSearchToolResult (some
        [some ⟨"web_search_result", some "a", some "TA", some "SA", none⟩,
         some ⟨"web_search_result", some "b", some "TB", some "SB", none⟩,
         some ⟨"web_search_result", some "a", some "TA2", some "SA2", none⟩]))]⟩) []).map
      (fun a => a.url) = ["a", "b"] := by
  have h := (C9_output_ordering (fun _ => none) 0 []
    [some (ContentBlock.webSearchToolResult (some
      [some ⟨"web_search_result", some "a", some "TA", some "SA", none⟩,
       some ⟨"web_search_result", some "b", some "TB", some "SB", none⟩,
       some ⟨"web_search_result", some "a", some "TA2", some "SA2", none⟩]))]).2.2.2
    rfl (by decide) (by decide)
  rw [h]
  decide

theorem C10_witness :
    (mkCitationArticle (fun _ => none) 0 [] []
      "w" ⟨"web_search_result_location", some "w", none, none⟩).citations.length = 1 := by
  apply C10_single_citation (fun _ => none) 0 []
    [some (ContentBlock.text (some
      [some ⟨"web_search_result_location", some "w", none, none⟩]))]
  have harts : (runBlocks (fun _ => none) 0 []
      [some (ContentBlock.text (some
        [some ⟨"web_search_result_location", some "w", none, none⟩]))]
      ⟨[], []⟩).articles =
      [mkCitationArticle (fun _ => none) 0 [] []
        "w" ⟨"web_search_result_location", some "w", none, none⟩] := rfl
  rw [harts]
  exact List.mem_singleton_self _

/-- C4 (counterexample): on an empty string the outward-facing coercion path
does attempt free-form parsing, it does not short-circuit: with a parser
that succeeds on "", it returns that parse result instead of None, while the
normalizer-internal parser short-circuits the empty string to None. -/
theorem C4_counterexample_empty_attempts_parse :
    NewsArticle.parse_published_date (fun _ => some ⟨5, some 0⟩) 0 (PyDateValue.vStr "")
      = some ⟨5, some 0⟩
  ∧ AnthropicService.parse_published_date (fun _ => some ⟨5, some 0⟩) 0 (some "") = none := by
  exact ⟨by decide, rfl⟩
